import Mathlib

/-!
# Verification of the excentrico-tools-go asset-synchronization engine

Shallow embedding of the core logic of the repository: slug derivation,
Drive scan filtering and snapshot reconciliation, the WordPress media
publisher, the entity upsert state machine, category lookup and the
director-name splitter.  External collaborators (Google Drive, the
WordPress REST backend, the Turso metadata store, the local filesystem)
are modelled as explicit inputs/oracles; machine strings are Lean
`String`/`List Char`.
-/

namespace Excentrico

/-! ## Character and string helpers (Go standard-library behaviour) -/

/-- ASCII lower-casing of one character.  Models Go `strings.ToLower`
restricted to ASCII; non-ASCII characters are kept unchanged (in the
source every character that survives the later `[^a-z0-9]+` filter is
ASCII, so this restriction is invisible to the functions below). -/
def asciiLowerChar (c : Char) : Char :=
  if 'A' ≤ c ∧ c ≤ 'Z' then Char.ofNat (c.toNat + 32) else c

/-- ASCII upper-casing of one character (Go `strings.ToUpper` on ASCII). -/
def asciiUpperChar (c : Char) : Char :=
  if 'a' ≤ c ∧ c ≤ 'z' then Char.ofNat (c.toNat - 32) else c

def asciiLower (l : List Char) : List Char := l.map asciiLowerChar

def asciiUpper (l : List Char) : List Char := l.map asciiUpperChar

/-- Whitespace class trimmed by Go `strings.TrimSpace` (ASCII part). -/
def goSpaceChar (c : Char) : Bool :=
  c = ' ' || c = '\t' || c = '\n' || c = '\r' || c = '\u000B' || c = '\u000C'

/-- Go `strings.TrimSpace` on a character list. -/
def goTrimSpace (l : List Char) : List Char :=
  ((l.dropWhile goSpaceChar).reverse.dropWhile goSpaceChar).reverse

/-- Go `strings.ToLower` on a string (ASCII model, see `asciiLowerChar`). -/
def goToLower (s : String) : String := ⟨asciiLower s.toList⟩

/-- Go `strings.ToUpper` on a string (ASCII model). -/
def goToUpper (s : String) : String := ⟨asciiUpper s.toList⟩

/-- Go `strings.TrimSpace` on a string. -/
def goTrimSpaceStr (s : String) : String := ⟨goTrimSpace s.toList⟩

/-! ## `CreateWordPressSlug` (src/internal/wordpress/operations.go lines 23-40) -/

/-- Diacritic folding of one character: models the source's
`transform.Chain(norm.NFD, runes.Remove(runes.In(unicode.Mn)), norm.NFC)`
on the precomposed Latin letters this repository's data uses (NFD
decomposes the letter into base + combining mark, the mark is removed,
NFC recomposes, leaving the bare base letter).  Characters without a
canonical Latin decomposition are unchanged, exactly as in the chain. -/
def removeDiacritics (c : Char) : Char :=
  match c with
  | 'á' | 'à' | 'â' | 'ä' | 'ã' | 'å' => 'a'
  | 'Á' | 'À' | 'Â' | 'Ä' | 'Ã' | 'Å' => 'A'
  | 'é' | 'è' | 'ê' | 'ë' => 'e'
  | 'É' | 'È' | 'Ê' | 'Ë' => 'E'
  | 'í' | 'ì' | 'î' | 'ï' => 'i'
  | 'Í' | 'Ì' | 'Î' | 'Ï' => 'I'
  | 'ó' | 'ò' | 'ô' | 'ö' | 'õ' => 'o'
  | 'Ó' | 'Ò' | 'Ô' | 'Ö' | 'Õ' => 'O'
  | 'ú' | 'ù' | 'û' | 'ü' => 'u'
  | 'Ú' | 'Ù' | 'Û' | 'Ü' => 'U'
  | 'ñ' => 'n'
  | 'Ñ' => 'N'
  | 'ç' => 'c'
  | 'Ç' => 'C'
  | 'ý' => 'y'
  | _ => c

/-- The character class `[a-z0-9]` of the slug regular expression. -/
def isSlugChar (c : Char) : Bool :=
  ('a' ≤ c && c ≤ 'z') || ('0' ≤ c && c ≤ '9')

/-- Run-tracking core of the `[^a-z0-9]+` → `-` replacement: `inRun` is
true while inside a run of non-slug characters whose hyphen was already
emitted. -/
def collapseAux : Bool → List Char → List Char
  | _, [] => []
  | inRun, c :: rest =>
    if isSlugChar c then c :: collapseAux false rest
    else if inRun then collapseAux true rest
    else '-' :: collapseAux true rest

/-- `regexp.MustCompile("[^a-z0-9]+").ReplaceAllString(s, "-")`: every
maximal run of characters outside `[a-z0-9]` becomes a single hyphen. -/
def collapseNonSlug (l : List Char) : List Char := collapseAux false l

/-- `strings.Trim(s, "-")`. -/
def trimHyphens (l : List Char) : List Char :=
  ((l.dropWhile (fun c => c = '-')).reverse.dropWhile (fun c => c = '-')).reverse

/-- `CreateWordPressSlug` on a character list.  The final `slug[:50]`
truncation in the source is a byte slice; at that point every character
is ASCII (`[a-z0-9-]`), so bytes and characters coincide. -/
def createWordPressSlugL (title : List Char) : List Char :=
  let folded := (title.map removeDiacritics).map asciiLowerChar
  let collapsed := collapseNonSlug folded
  let trimmed := trimHyphens collapsed
  if trimmed.length > 50 then trimmed.take 50 else trimmed

/-- `CreateWordPressSlug` (src/internal/wordpress/operations.go). -/
def createWordPressSlug (title : String) : String :=
  ⟨createWordPressSlugL title.toList⟩

/-- Construction of the slug source text in `CreateOrUpdateWordPressProject`
(operations.go lines 226-240): title, section and year are joined with
single spaces, skipping the placeholder title and empty fields, with the
fallback `"untitled-film"` when everything is skipped. -/
def slugTextOf (filmTitle sectionName year : String) : String :=
  let parts :=
    (if filmTitle ≠ "Untitled Film" then [filmTitle] else []) ++
    (if sectionName ≠ "" then [sectionName] else []) ++
    (if year ≠ "" then [year] else [])
  let txt := String.intercalate " " parts
  if txt = "" then "untitled-film" else txt

/-! ### Slug lemmas -/

theorem createWordPressSlugL_eq (title : List Char) :
    createWordPressSlugL title =
      if (trimHyphens (collapseNonSlug
            ((title.map removeDiacritics).map asciiLowerChar))).length > 50
      then (trimHyphens (collapseNonSlug
            ((title.map removeDiacritics).map asciiLowerChar))).take 50
      else trimHyphens (collapseNonSlug
            ((title.map removeDiacritics).map asciiLowerChar)) := rfl

/-- A slug character is never the hyphen. -/
theorem slugChar_ne_hyphen {c : Char} (h : isSlugChar c) : c ≠ '-' := by
  intro hc; subst hc; simp [isSlugChar] at h

/-- Every character emitted by `collapseAux` is in `[a-z0-9]` or a hyphen. -/
theorem mem_collapseAux {c : Char} :
    ∀ {l : List Char} {b : Bool}, c ∈ collapseAux b l → isSlugChar c ∨ c = '-' := by
  intro l
  induction l with
  | nil => intro b h; simp [collapseAux] at h
  | cons d rest ih =>
    intro b h
    rw [collapseAux] at h
    by_cases hd : isSlugChar d
    · rw [if_pos hd] at h
      rcases List.mem_cons.mp h with h | h
      · exact Or.inl (h ▸ hd)
      · exact ih h
    · rw [if_neg hd] at h
      cases b with
      | true => exact ih (by simpa using h)
      | false =>
        rcases List.mem_cons.mp (by simpa using h) with h | h
        · exact Or.inr h
        · exact ih h

/-- Every character emitted by `collapseNonSlug` is in `[a-z0-9]` or a hyphen. -/
theorem mem_collapseNonSlug {c : Char} {l : List Char}
    (h : c ∈ collapseNonSlug l) : isSlugChar c ∨ c = '-' :=
  mem_collapseAux h

/-- The head of `l.dropWhile p` does not satisfy `p`. -/
theorem head_dropWhile_not {p : Char → Bool} :
    ∀ {l : List Char} {c : Char} {rest : List Char},
      l.dropWhile p = c :: rest → p c = false := by
  intro l
  induction l with
  | nil => intro c rest h; simp [List.dropWhile] at h
  | cons d tl ih =>
    intro c rest h
    rw [List.dropWhile_cons] at h
    by_cases hp : p d
    · rw [if_pos hp] at h; exact ih h
    · rw [if_neg hp] at h
      cases h; simpa using hp

/-- Inside a run (`inRun = true`) the next emitted character is never a hyphen. -/
theorem collapseAux_true_head :
    ∀ {l : List Char}, (collapseAux true l).head? ≠ some '-' := by
  intro l
  induction l with
  | nil => simp [collapseAux]
  | cons d rest ih =>
    rw [collapseAux]
    by_cases hd : isSlugChar d
    · rw [if_pos hd]
      intro h
      exact slugChar_ne_hyphen hd (by simpa using h)
    · rw [if_neg hd]
      simpa using ih

/-- `collapseAux` never emits two adjacent hyphens. -/
theorem no_adjacent_hyphens_collapseAux :
    ∀ {l : List Char} {b : Bool}, ¬ ['-', '-'] <:+: collapseAux b l := by
  intro l
  induction l with
  | nil => intro b h; simp [collapseAux] at h
  | cons d rest ih =>
    intro b h
    rw [collapseAux] at h
    by_cases hd : isSlugChar d
    · rw [if_pos hd] at h
      rcases List.infix_cons_iff.mp h with h | h
      · rcases h with ⟨t, ht⟩
        simp only [List.cons_append] at ht
        exact slugChar_ne_hyphen hd (List.cons.injEq _ _ _ _ ▸ ht).1.symm
      · exact ih h
    · rw [if_neg hd] at h
      cases b with
      | true => exact ih (by simpa using h)
      | false =>
        rcases List.infix_cons_iff.mp (by simpa using h) with h | h
        · rcases h with ⟨t, ht⟩
          simp only [List.cons_append] at ht
          have h2 : '-' :: t = collapseAux true rest :=
            (List.cons.injEq _ _ _ _ ▸ ht).2
          exact collapseAux_true_head (by rw [← h2]; rfl)
        · exact ih h

/-- `collapseNonSlug` never emits two adjacent hyphens. -/
theorem no_adjacent_hyphens_collapseNonSlug {l : List Char} :
    ¬ ['-', '-'] <:+: collapseNonSlug l :=
  no_adjacent_hyphens_collapseAux

theorem reverse_infix_reverse {l m : List Char} (h : l <:+: m) :
    l.reverse <:+: m.reverse := List.reverse_infix.mpr (by simpa using h)

/-- `trimHyphens` returns an infix of its argument. -/
theorem trimHyphens_infix_self (l : List Char) : trimHyphens l <:+: l := by
  unfold trimHyphens
  have h1 : l.dropWhile (fun c => c = '-') <:+: l :=
    (List.dropWhile_suffix _).isInfix
  have h2 : (l.dropWhile (fun c => c = '-')).reverse.dropWhile (fun c => c = '-')
      <:+: (l.dropWhile (fun c => c = '-')).reverse :=
    (List.dropWhile_suffix _).isInfix
  have h3 := reverse_infix_reverse h2
  rw [List.reverse_reverse] at h3
  exact h3.trans h1

/-- The slug is an infix of the collapsed form. -/
theorem slug_infix_collapsed (title : List Char) :
    createWordPressSlugL title <:+:
      collapseNonSlug ((title.map removeDiacritics).map asciiLowerChar) := by
  rw [createWordPressSlugL_eq]
  split
  · exact (( List.take_prefix _ _).isInfix).trans (trimHyphens_infix_self _)
  · exact trimHyphens_infix_self _

/-- The head of the trimmed list is not a hyphen. -/
theorem trimHyphens_head_ne (l : List Char) {c : Char} {rest : List Char}
    (h : trimHyphens l = c :: rest) : c ≠ '-' := by
  unfold trimHyphens at h
  have hsuf : (l.dropWhile (fun c => c = '-')).reverse.dropWhile (fun c => c = '-')
      <:+ (l.dropWhile (fun c => c = '-')).reverse := List.dropWhile_suffix _
  have hpre := List.reverse_prefix.mpr hsuf
  rw [List.reverse_reverse, h] at hpre
  rcases hpre with ⟨t, ht⟩
  simp only [List.cons_append] at ht
  have hhead : l.dropWhile (fun c => c = '-') = c :: (rest ++ t) := ht.symm
  have := head_dropWhile_not hhead
  simpa using this

/-- The last element of the trimmed list is not a hyphen. -/
theorem trimHyphens_getLast_ne (l : List Char) {c : Char}
    (h : (trimHyphens l).getLast? = some c) : c ≠ '-' := by
  unfold trimHyphens at h
  rw [List.getLast?_reverse] at h
  cases hdw : (l.dropWhile (fun c => c = '-')).reverse.dropWhile (fun c => c = '-') with
  | nil => rw [hdw] at h; simp at h
  | cons d tl =>
    rw [hdw] at h
    have hd : (fun c => decide (c = '-')) d = false := head_dropWhile_not hdw
    have hcd : d = c := by simpa using h
    subst hcd
    simpa using hd

/-- Character-set property of the slug. -/
theorem slug_charset (title : List Char) {c : Char}
    (hc : c ∈ createWordPressSlugL title) : isSlugChar c ∨ c = '-' :=
  mem_collapseNonSlug (List.IsInfix.mem hc (slug_infix_collapsed title))

theorem slug_no_adjacent (title : List Char) :
    ¬ ['-', '-'] <:+: createWordPressSlugL title :=
  fun h => no_adjacent_hyphens_collapseNonSlug (h.trans (slug_infix_collapsed title))

theorem slug_length_le (title : List Char) :
    (createWordPressSlugL title).length ≤ 50 := by
  rw [createWordPressSlugL_eq]
  split
  · simp [List.length_take]
  · omega

theorem slug_head_ne_hyphen (title : List Char) {c : Char} {rest : List Char}
    (h : createWordPressSlugL title = c :: rest) : c ≠ '-' := by
  rw [createWordPressSlugL_eq] at h
  rcases Nat.lt_or_ge 50
    ((trimHyphens (collapseNonSlug
      ((title.map removeDiacritics).map asciiLowerChar))).length) with hlen | hlen
  · rw [if_pos hlen] at h
    cases htk : trimHyphens (collapseNonSlug
        ((title.map removeDiacritics).map asciiLowerChar)) with
    | nil => rw [htk] at h; simp at h
    | cons d tl =>
      rw [htk, show (50 : Nat) = 49 + 1 from rfl, List.take_succ_cons] at h
      have hdc : d = c := (List.cons.injEq _ _ _ _ ▸ h).1
      subst hdc
      exact trimHyphens_head_ne _ htk
  · rw [if_neg (by omega)] at h
    exact trimHyphens_head_ne _ h

theorem slug_last_ne_hyphen_of_short (title : List Char) {c : Char}
    (hlen : (trimHyphens (collapseNonSlug
      ((title.map removeDiacritics).map asciiLowerChar))).length ≤ 50)
    (h : (createWordPressSlugL title).getLast? = some c) : c ≠ '-' := by
  rw [createWordPressSlugL_eq, if_neg (by omega)] at h
  exact trimHyphens_getLast_ne _ h

/-! ### C8 -/

set_option maxHeartbeats 4000000 in
/-- C8 counterexample: the source trims hyphens *before* the 50-byte
truncation, so a slug whose 50th character is a hyphen keeps a trailing
hyphen.  Title of 49 `a`s with section `"bb"`: the joined text becomes
49 `a`s, a space and `bb`; the slug before truncation is 49 `a`s, `-`,
`bb` (52 chars), and `slug[:50]` ends in `-`, contradicting the claim's
"no leading or trailing hyphen" for every title, section and year. -/
theorem C8_trailing_hyphen_counterexample :
    (createWordPressSlug
        (slugTextOf (String.mk (List.replicate 49 'a')) "bb" "")).toList.getLast?
      = some '-' := by decide

set_option maxHeartbeats 4000000 in
/-- C8 (amended): for every title, section and year, the derived slug
consists only of lowercase ASCII letters, digits and hyphens, has runs of
non-alphanumeric characters collapsed to single hyphens (no two adjacent
hyphens), has no leading hyphen, has length at most 50, and has no
trailing hyphen whenever the pre-truncation trimmed slug fits in 50
characters (truncation can leave a trailing hyphen, see the
counterexample); title `"Le Film: Étude"`, section `"Drama"`, year
`"2025"` yields `"le-film-etude-drama-2025"`. -/
theorem C8_slug_properties :
    (∀ t s y : String,
      (∀ c ∈ (createWordPressSlug (slugTextOf t s y)).toList,
          isSlugChar c ∨ c = '-') ∧
      ¬ ['-', '-'] <:+: (createWordPressSlug (slugTextOf t s y)).toList ∧
      (∀ c rest, (createWordPressSlug (slugTextOf t s y)).toList = c :: rest →
          c ≠ '-') ∧
      (createWordPressSlug (slugTextOf t s y)).toList.length ≤ 50 ∧
      (∀ c, (trimHyphens (collapseNonSlug
          (((slugTextOf t s y).toList.map removeDiacritics).map
            asciiLowerChar))).length ≤ 50 →
        (createWordPressSlug (slugTextOf t s y)).toList.getLast? = some c →
        c ≠ '-')) ∧
    createWordPressSlug (slugTextOf "Le Film: Étude" "Drama" "2025")
      = "le-film-etude-drama-2025" := by
  constructor
  · intro t s y
    have hdata : (createWordPressSlug (slugTextOf t s y)).toList
        = createWordPressSlugL (slugTextOf t s y).toList := rfl
    rw [hdata]
    exact ⟨fun c hc => slug_charset _ hc,
      slug_no_adjacent _,
      fun c rest h => slug_head_ne_hyphen _ h,
      slug_length_le _,
      fun c hlen h => slug_last_ne_hyphen_of_short _ hlen h⟩
  · decide

set_option maxHeartbeats 4000000 in
/-- Witness for `C8_slug_properties` at the concrete title/section/year. -/
theorem C8_slug_properties_witness :
    ('e' ∈ (createWordPressSlug (slugTextOf "Le Film: Étude" "Drama" "2025")).toList)
    ∧ (isSlugChar 'e' ∨ 'e' = '-') :=
  ⟨by decide,
    ((C8_slug_properties.1 "Le Film: Étude" "Drama" "2025").1) 'e' (by decide)⟩

/-! ## Google Drive scan filtering and reconciliation
(src/internal/drive/operations.go) -/

/-- `models.FileWithPath`: one scanned Drive file with its folder lineage. -/
structure FileWithPath where
  id : String
  name : String
  mimeType : String
  size : String
  createdTime : String
  modifiedTime : String
  folderPath : String
  folderName : String
  deriving DecidableEq, BEq, Repr

/-- The image MIME types of `utils.IsImageFile`. -/
def imageMimeTypes : List String :=
  ["image/jpeg", "image/jpg", "image/png", "image/gif",
   "image/webp", "image/bmp", "image/tiff"]

/-- `utils.IsImageFile`: case-insensitive comparison (`strings.EqualFold`)
against the fixed list; since every listed type is lowercase ASCII this is
lower-casing the argument and testing membership. -/
def isImageFile (mimeType : String) : Bool :=
  imageMimeTypes.any (fun t => goToLower mimeType == t)

/-- The allow-list of `isAllowedFolder` (drive/operations.go lines 99-117). -/
def allowedFolders : List String := ["background", "featured image", "stills", "dir"]

/-- `isAllowedFolder`: empty folder names are rejected, otherwise the
name is trimmed, lower-cased and compared against the allow-list. -/
def isAllowedFolder (folderName : String) : Bool :=
  if folderName = "" then false
  else allowedFolders.contains (goToLower (goTrimSpaceStr folderName))

/-- The filtered scan (drive/operations.go lines 154-167): image files in
allow-listed folders. -/
def filteredFilesOf (allFiles : List FileWithPath) : List FileWithPath :=
  allFiles.filter (fun f => isImageFile f.mimeType && isAllowedFolder f.folderName)

/-- Result of `GetDriveFilesMetadata`: the persisted snapshot row, a missing
row (the dedicated "metadata not found" condition) or another store error. -/
inductive SnapshotGet where
  | notFound
  | storeError
  | found (files : List FileWithPath)

/-- The download set (drive/operations.go lines 172-225).  `onDisk f` is
the `os.Stat` probe of the file's expected destination path; `mkdirOk f`
is `os.MkdirAll` of its subdirectory (only consulted when the file has a
non-empty folder path; on failure the file is skipped entirely).  When no
snapshot row exists, or loading it failed, every filtered file is
downloaded. -/
def filesToDownloadOf (snap : SnapshotGet) (filtered : List FileWithPath)
    (onDisk mkdirOk : FileWithPath → Bool) : List FileWithPath :=
  match snap with
  | .notFound => filtered
  | .storeError => filtered
  | .found existing =>
    filtered.filter (fun f =>
      if existing.any (fun e => e.id == f.id) then
        if f.folderPath ≠ "" && !(mkdirOk f) then false
        else !(onDisk f)
      else true)

structure DriveRunResult where
  toDownload : List FileWithPath
  snapshot : List FileWithPath

/-- Reconciliation core of `ProcessGoogleDriveFiles` for a successful pass:
the folder listing succeeded (a listing failure aborts before any of this)
and the final `SaveDriveFilesMetadata` succeeded (its failure aborts the
pass with an error and the old row is kept).  The saved snapshot is
exactly the filtered files — a full replace, not a merge (lines 311-320). -/
def processGoogleDriveFiles (snap : SnapshotGet) (allFiles : List FileWithPath)
    (onDisk mkdirOk : FileWithPath → Bool) : DriveRunResult :=
  let filtered := filteredFilesOf allFiles
  { toDownload := filesToDownloadOf snap filtered onDisk mkdirOk
    snapshot := filtered }

/-- The download set is always drawn from the filtered files. -/
theorem mem_toDownload_mem_filtered {snap : SnapshotGet}
    {filtered : List FileWithPath} {onDisk mkdirOk : FileWithPath → Bool}
    {f : FileWithPath} (h : f ∈ filesToDownloadOf snap filtered onDisk mkdirOk) :
    f ∈ filtered := by
  cases snap with
  | notFound => exact h
  | storeError => exact h
  | found existing => exact (List.mem_filter.mp h).1

/-- Concrete files for the snapshot-replace scenario. -/
def fileA : FileWithPath :=
  ⟨"idA", "a.jpg", "image/jpeg", "10", "", "", "Stills", "Stills"⟩

def fileB : FileWithPath :=
  ⟨"idB", "b.jpg", "image/jpeg", "11", "", "", "Stills", "Stills"⟩

def fileC : FileWithPath :=
  ⟨"idC", "c.png", "image/png", "12", "", "", "Background", "Background"⟩

/-! ### C3 -/

/-- C3: after a successful reconciliation pass the persisted snapshot is
exactly the current scan's filtered set, for every previous snapshot —
and concretely, previous snapshot `{a,b}` with a current scan filtering
to `{b,c}` persists exactly `{b,c}`: `a` is dropped even though every
file is still present on disk (`onDisk` constantly true) and no error
occurred. -/
theorem C3_snapshot_replace :
    (∀ (snap : SnapshotGet) (allFiles : List FileWithPath)
        (onDisk mkdirOk : FileWithPath → Bool),
      (processGoogleDriveFiles snap allFiles onDisk mkdirOk).snapshot
        = filteredFilesOf allFiles) ∧
    ((processGoogleDriveFiles (.found [fileA, fileB]) [fileB, fileC]
        (fun _ => true) (fun _ => true)).snapshot = [fileB, fileC] ∧
     (processGoogleDriveFiles (.found [fileA, fileB]) [fileB, fileC]
        (fun _ => true) (fun _ => true)).snapshot.contains fileA = false) := by
  refine ⟨fun snap allFiles onDisk mkdirOk => rfl, ?_, ?_⟩
  · decide
  · decide

/-! ### C4 -/

/-- C4: a scanned file whose immediate folder name, trimmed and
lower-cased, is not in the allow-list — or whose MIME type is not an
image type — is never in the download set and never in the persisted
snapshot. -/
theorem C4_allowlist_filtering :
    ∀ (snap : SnapshotGet) (allFiles : List FileWithPath)
      (onDisk mkdirOk : FileWithPath → Bool) (f : FileWithPath),
      (goToLower (goTrimSpaceStr f.folderName) ∉ allowedFolders ∨
        isImageFile f.mimeType = false) →
      f ∉ (processGoogleDriveFiles snap allFiles onDisk mkdirOk).toDownload ∧
      f ∉ (processGoogleDriveFiles snap allFiles onDisk mkdirOk).snapshot := by
  intro snap allFiles onDisk mkdirOk f hf
  have hmem : f ∉ filteredFilesOf allFiles := by
    intro hmem
    have hp := (List.mem_filter.mp hmem).2
    have himg : isImageFile f.mimeType = true := by
      cases himg : isImageFile f.mimeType
      · rw [himg] at hp; simp at hp
      · rfl
    have hfold : isAllowedFolder f.folderName = true := by
      cases hfold : isAllowedFolder f.folderName
      · rw [hfold] at hp; simp at hp
      · rfl
    rcases hf with hf | hf
    · unfold isAllowedFolder at hfold
      by_cases hname : f.folderName = ""
      · rw [if_pos hname] at hfold
        simp at hfold
      · rw [if_neg hname] at hfold
        exact hf (by simpa using hfold)
    · rw [hf] at himg; simp at himg
  exact ⟨fun h => hmem (mem_toDownload_mem_filtered h), fun h => hmem h⟩

/-- Concrete file in a non-allow-listed folder for the C4 witness. -/
def fileRandom : FileWithPath :=
  ⟨"idR", "r.jpg", "image/jpeg", "13", "", "", "Random Folder", "Random Folder"⟩

/-- Witness for `C4_allowlist_filtering`: an image file in folder
`"Random Folder"` is excluded from both sets. -/
theorem C4_allowlist_filtering_witness :
    (goToLower (goTrimSpaceStr fileRandom.folderName) ∉ allowedFolders) ∧
    fileRandom ∉ (processGoogleDriveFiles .notFound [fileRandom, fileB]
        (fun _ => true) (fun _ => true)).toDownload ∧
    fileRandom ∉ (processGoogleDriveFiles .notFound [fileRandom, fileB]
        (fun _ => true) (fun _ => true)).snapshot :=
  ⟨by decide,
    C4_allowlist_filtering .notFound [fileRandom, fileB]
      (fun _ => true) (fun _ => true) fileRandom (Or.inl (by decide))⟩

/-! ## Media publisher: `UploadMediaToWordPress`
(src/internal/wordpress/operations.go lines 42-186) -/

/-- The WordPress media object returned by `UploadMediaFromFile`. -/
structure MediaItem where
  id : Nat
  title : String
  sourceURL : String
  altText : String
  deriving DecidableEq, Repr

/-- A Go dynamic number held in a `map[string]any`.  `goInt` is a value
written as a Go `int`; `goFloat` is a `float64` (carrying an integral
value).  Modelled from encoding/json: unmarshalling into `any` always
produces `float64` for JSON numbers. -/
inductive GoNum where
  | goInt (n : Int)
  | goFloat (n : Int)
  deriving DecidableEq, Repr

/-- One `mediaInfo` ledger entry of the `"wordpress_media"` record
(operations.go lines 142-156). -/
structure LedgerEntry where
  id : Nat
  title : String
  sourceURL : String
  altText : String
  filePath : String
  postId : GoNum
  deriving DecidableEq, Repr

/-- `encoding/json` round trip of one ledger entry through the metadata
store: `SaveMetadata` marshals it and `GetMetadata` unmarshals into
`[]map[string]any`, turning every number — in particular `post_id` —
into a `float64`. -/
def jsonRoundTripEntry (e : LedgerEntry) : LedgerEntry :=
  { e with postId := match e.postId with
      | .goInt n => .goFloat n
      | .goFloat n => .goFloat n }

/-- `filepath.Base` for the slash-separated paths produced by
`filepath.Walk` (no trailing separators occur there): the final path
component, i.e. everything after the last `/`. -/
def baseName (p : String) : String :=
  ⟨(p.toList.reverse.takeWhile (fun c => c ≠ '/')).reverse⟩

/-- `strings.HasSuffix` (byte suffix; the suffixes used here are ASCII,
so characters coincide with bytes). -/
def goHasSuffix (s sfx : String) : Bool :=
  sfx.toList.length ≤ s.toList.length &&
    (s.toList.drop (s.toList.length - sfx.toList.length) == sfx.toList)

/-- `strings.TrimSuffix`. -/
def goTrimSuffix (s sfx : String) : String :=
  if goHasSuffix s sfx
  then ⟨s.toList.take (s.toList.length - sfx.toList.length)⟩
  else s

/-- The `filepath.Walk` collection of `_web.jpg` files (operations.go
lines 66-77): regular files whose lower-cased name has the suffix. -/
def webFilesOf (paths : List String) : List String :=
  paths.filter (fun p => goHasSuffix (goToLower (baseName p)) "_web.jpg")

/-- Upload title `"{film title} - {base name without _web.jpg}"`. -/
def mkUploadTitle (filmTitle fileName : String) : String :=
  filmTitle ++ " - " ++ goTrimSuffix fileName "_web.jpg"

/-- Alt text `"Image from {film title}"`. -/
def mkAltText (filmTitle : String) : String := "Image from " ++ filmTitle

/-- Go-map lookup on an association list. -/
def mapLookup : List (String × Nat) → String → Option Nat
  | [], _ => none
  | (a, b) :: tl, k => if a = k then some b else mapLookup tl k

/-- Go-map insert-or-overwrite on an association list (the iteration
order of a Go map is unspecified; the association list fixes one). -/
def mapInsert : List (String × Nat) → String → Nat → List (String × Nat)
  | [], k, v => [(k, v)]
  | (a, b) :: tl, k, v =>
    if a = k then (k, v) :: tl else (a, b) :: mapInsert tl k v

/-- Accumulator of the upload loop (operations.go lines 113-160). -/
structure UpAcc where
  uploaded : List LedgerEntry
  map : List (String × Nat)
  upCount : Nat
  skipCount : Nat
  failCount : Nat
  deriving DecidableEq, Repr

/-- The upload loop.  `existing` is the loaded `existingImageMetadata`
map (lookups are against it, not against the accumulating map, exactly
as in the source); `uploadFn path title altText` is the
`UploadMediaFromFile` call, `none` on failure (failures are counted and
skipped); `entryPid` is the `post_id` written into new ledger entries
(`metadata.PostID` when WordPress metadata exists, else `0`), stored as
a Go `int`. -/
def uploadLoop (existing : List (String × Nat))
    (uploadFn : String → String → String → Option MediaItem)
    (filmTitle : String) (entryPid : Int) :
    List String → UpAcc → UpAcc
  | [], acc => acc
  | f :: rest, acc =>
    let fileName := baseName f
    if (mapLookup existing fileName).isSome then
      uploadLoop existing uploadFn filmTitle entryPid rest
        { acc with skipCount := acc.skipCount + 1 }
    else
      match uploadFn f (mkUploadTitle filmTitle fileName) (mkAltText filmTitle) with
      | none =>
        uploadLoop existing uploadFn filmTitle entryPid rest
          { acc with failCount := acc.failCount + 1 }
      | some m =>
        uploadLoop existing uploadFn filmTitle entryPid rest
          { acc with
              uploaded := acc.uploaded ++
                [⟨m.id, m.title, m.sourceURL, m.altText, f, .goInt entryPid⟩],
              map := mapInsert acc.map fileName m.id,
              upCount := acc.upCount + 1 }

/-- Observable result of one `UploadMediaToWordPress` pass.
`persistedImages`/`persistedLedger` are the store rows `"wp_images"` and
`"wordpress_media"` after the pass (their save failures are only warned
about and leave the old row; success is modelled). -/
structure UploadRun where
  imageIds : List Nat
  uploadedMedia : List LedgerEntry
  finalMap : List (String × Nat)
  uploadedCount : Nat
  skippedCount : Nat
  failedCount : Nat
  persistedImages : Option (List (String × Nat))
  persistedLedger : Option (List LedgerEntry)
  deriving DecidableEq, Repr

/-- `UploadMediaToWordPress`.  `wpMeta` is the loaded WordPress post id
(`none` = "metadata not found"; a different load error aborts the pass
and is not modelled here).  `existingImages` and `prevLedger` are the
current `"wp_images"` and `"wordpress_media"` rows.  With no `_web.jpg`
files the pass returns an empty id list without touching the store.
Afterwards: the merged filename→media-id map is always saved; the
`"wordpress_media"` row is overwritten with **only this pass's new
entries** when there is at least one (`SaveMetadata` is an
insert-or-replace upsert, src/internal/services/turso_service.go lines
62-82), and left untouched otherwise.  The returned ids are the values
of the merged map. -/
def uploadMediaToWordPress (wpMeta : Option Int)
    (existingImages : Option (List (String × Nat)))
    (prevLedger : Option (List LedgerEntry))
    (webFiles : List String)
    (uploadFn : String → String → String → Option MediaItem)
    (filmTitle : String) : UploadRun :=
  if webFiles = [] then
    { imageIds := [], uploadedMedia := [], finalMap := [],
      uploadedCount := 0, skippedCount := 0, failedCount := 0,
      persistedImages := existingImages, persistedLedger := prevLedger }
  else
    let existing := existingImages.getD []
    let entryPid := wpMeta.getD 0
    let acc := uploadLoop existing uploadFn filmTitle entryPid webFiles
      ⟨[], existing, 0, 0, 0⟩
    { imageIds := acc.map.map (fun p => p.2),
      uploadedMedia := acc.uploaded,
      finalMap := acc.map,
      uploadedCount := acc.upCount,
      skippedCount := acc.skipCount,
      failedCount := acc.failCount,
      persistedImages := some acc.map,
      persistedLedger := if acc.uploaded = [] then prevLedger else some acc.uploaded }

/-! ### Upload-loop lemmas -/

theorem lookup_mapInsert (m : List (String × Nat)) (k : String) (v : Nat)
    (k2 : String) :
    mapLookup (mapInsert m k v) k2 = if k = k2 then some v else mapLookup m k2 := by
  induction m with
  | nil =>
    by_cases h : k = k2
    · simp [mapInsert, mapLookup, h]
    · simp [mapInsert, mapLookup, h]
  | cons p tl ih =>
    obtain ⟨a, b⟩ := p
    rw [show mapInsert ((a, b) :: tl) k v
        = if a = k then (k, v) :: tl else (a, b) :: mapInsert tl k v from rfl]
    by_cases hak : a = k
    · subst hak
      rw [if_pos rfl]
      by_cases h2 : a = k2
      · simp [mapLookup, h2]
      · simp [mapLookup, h2]
    · rw [if_neg hak]
      by_cases h2a : a = k2
      · subst h2a
        have hk : ¬ k = a := fun h => hak h.symm
        simp [mapLookup, hk]
      · rw [show mapLookup ((a, b) :: mapInsert tl k v) k2
            = if a = k2 then some b else mapLookup (mapInsert tl k v) k2 from rfl]
        rw [if_neg h2a, ih]
        by_cases hk2 : k = k2
        · rw [if_pos hk2, if_pos hk2]
        · rw [if_neg hk2, if_neg hk2]
          rw [show mapLookup ((a, b) :: tl) k2
              = if a = k2 then some b else mapLookup tl k2 from rfl, if_neg h2a]

/-- Keys present in the accumulator map survive the rest of the loop. -/
theorem uploadLoop_preserves_keys (existing : List (String × Nat))
    (uploadFn : String → String → String → Option MediaItem)
    (filmTitle : String) (entryPid : Int) :
    ∀ (files : List String) (acc : UpAcc) (k : String),
      ((mapLookup acc.map k).isSome) →
      ((mapLookup (uploadLoop existing uploadFn filmTitle entryPid files acc).map k).isSome) := by
  intro files
  induction files with
  | nil => intro acc k h; exact h
  | cons f rest ih =>
    intro acc k h
    rw [uploadLoop]
    by_cases hskip : ((mapLookup existing (baseName f)).isSome)
    · rw [if_pos hskip]
      exact ih _ k h
    · rw [if_neg hskip]
      cases hu : uploadFn f (mkUploadTitle filmTitle (baseName f)) (mkAltText filmTitle) with
      | none => exact ih _ k h
      | some m =>
        refine ih _ k ?_
        show ((mapLookup (mapInsert acc.map (baseName f) m.id) k).isSome)
        rw [lookup_mapInsert]
        by_cases hk : baseName f = k
        · rw [if_pos hk]; rfl
        · rw [if_neg hk]; exact h

/-- After a loop in which every upload succeeds, every processed file's
base name is a key of the final map. -/
theorem uploadLoop_all_keys (existing : List (String × Nat))
    (uploadFn : String → String → String → Option MediaItem)
    (filmTitle : String) (entryPid : Int) :
    ∀ (files : List String) (acc : UpAcc),
      (∀ f ∈ files,
        (uploadFn f (mkUploadTitle filmTitle (baseName f)) (mkAltText filmTitle)).isSome) →
      (∀ k, (mapLookup existing k).isSome → (mapLookup acc.map k).isSome) →
      ∀ f ∈ files,
        ((mapLookup (uploadLoop existing uploadFn filmTitle entryPid files acc).map
          (baseName f)).isSome) := by
  intro files
  induction files with
  | nil => intro acc _ _ f hf; exact absurd hf (List.not_mem_nil f)
  | cons f0 rest ih =>
    intro acc hsucc hsub f hf
    rw [uploadLoop]
    by_cases hskip : ((mapLookup existing (baseName f0)).isSome)
    · rw [if_pos hskip]
      rcases List.mem_cons.mp hf with hf | hf
      · subst hf
        exact uploadLoop_preserves_keys _ _ _ _ _ _ _ (hsub _ hskip)
      · exact ih { acc with skipCount := acc.skipCount + 1 }
          (fun g hg => hsucc g (List.mem_cons_of_mem _ hg)) hsub f hf
    · rw [if_neg hskip]
      cases hu : uploadFn f0 (mkUploadTitle filmTitle (baseName f0)) (mkAltText filmTitle) with
      | none =>
        exact absurd (hu ▸ hsucc f0 (List.mem_cons_self f0 rest)) (by simp)
      | some m =>
        have hsub2 : ∀ k, (mapLookup existing k).isSome →
            ((mapLookup (mapInsert acc.map (baseName f0) m.id) k).isSome) := by
          intro k hk
          rw [lookup_mapInsert]
          by_cases hkb : baseName f0 = k
          · rw [if_pos hkb]; rfl
          · rw [if_neg hkb]; exact hsub k hk
        rcases List.mem_cons.mp hf with hf | hf
        · subst hf
          refine uploadLoop_preserves_keys _ _ _ _ _ _ _ ?_
          show ((mapLookup (mapInsert acc.map (baseName f) m.id) (baseName f)).isSome)
          rw [lookup_mapInsert, if_pos rfl]; rfl
        · exact ih { acc with
              uploaded := acc.uploaded ++
                [⟨m.id, m.title, m.sourceURL, m.altText, f0, .goInt entryPid⟩],
              map := mapInsert acc.map (baseName f0) m.id,
              upCount := acc.upCount + 1 }
            (fun g hg => hsucc g (List.mem_cons_of_mem _ hg)) hsub2 f hf

/-- A loop in which every file's base name is already a key of the
loaded map only counts skips. -/
theorem uploadLoop_all_skipped (existing : List (String × Nat))
    (uploadFn : String → String → String → Option MediaItem)
    (filmTitle : String) (entryPid : Int) :
    ∀ (files : List String) (acc : UpAcc),
      (∀ f ∈ files, ((mapLookup existing (baseName f)).isSome)) →
      uploadLoop existing uploadFn filmTitle entryPid files acc
        = { acc with skipCount := acc.skipCount + files.length } := by
  intro files
  induction files with
  | nil =>
    intro acc _
    cases acc
    simp [uploadLoop]
  | cons f0 rest ih =>
    intro acc hall
    rw [uploadLoop, if_pos (hall f0 (List.mem_cons_self f0 rest))]
    rw [ih _ (fun g hg => hall g (List.mem_cons_of_mem _ hg))]
    cases acc
    simp only [List.length_cons, UpAcc.mk.injEq, true_and, and_true]
    omega

/-- Loop lookups of keys outside the processed base names are unchanged. -/
theorem uploadLoop_outside_keys (existing : List (String × Nat))
    (uploadFn : String → String → String → Option MediaItem)
    (filmTitle : String) (entryPid : Int) :
    ∀ (files : List String) (acc : UpAcc) (k : String),
      k ∉ files.map baseName →
      (mapLookup (uploadLoop existing uploadFn filmTitle entryPid files acc).map k)
        = mapLookup acc.map k := by
  intro files
  induction files with
  | nil => intro acc k _; rfl
  | cons f0 rest ih =>
    intro acc k hk
    have hk0 : baseName f0 ≠ k := by
      intro h; exact hk (by rw [← h]; exact List.mem_cons_self _ _)
    have hkr : k ∉ rest.map baseName := by
      intro h; exact hk (List.mem_cons_of_mem _ h)
    rw [uploadLoop]
    by_cases hskip : ((mapLookup existing (baseName f0)).isSome)
    · rw [if_pos hskip]; exact ih _ k hkr
    · rw [if_neg hskip]
      cases hu : uploadFn f0 (mkUploadTitle filmTitle (baseName f0)) (mkAltText filmTitle) with
      | none => exact ih _ k hkr
      | some m =>
        rw [ih _ k hkr]
        show (mapLookup (mapInsert acc.map (baseName f0) m.id) k) = mapLookup acc.map k
        rw [lookup_mapInsert, if_neg hk0]

/-- Unfolding of `uploadMediaToWordPress` for a non-empty file list. -/
theorem uploadMediaToWordPress_ne_empty (wpMeta : Option Int)
    (existingImages : Option (List (String × Nat)))
    (prevLedger : Option (List LedgerEntry))
    (webFiles : List String)
    (uploadFn : String → String → String → Option MediaItem)
    (filmTitle : String) (h : webFiles ≠ []) :
    uploadMediaToWordPress wpMeta existingImages prevLedger webFiles uploadFn filmTitle
      = { imageIds := (uploadLoop (existingImages.getD []) uploadFn filmTitle
            (wpMeta.getD 0) webFiles ⟨[], existingImages.getD [], 0, 0, 0⟩).map.map
              (fun p => p.2),
          uploadedMedia := (uploadLoop (existingImages.getD []) uploadFn filmTitle
            (wpMeta.getD 0) webFiles ⟨[], existingImages.getD [], 0, 0, 0⟩).uploaded,
          finalMap := (uploadLoop (existingImages.getD []) uploadFn filmTitle
            (wpMeta.getD 0) webFiles ⟨[], existingImages.getD [], 0, 0, 0⟩).map,
          uploadedCount := (uploadLoop (existingImages.getD []) uploadFn filmTitle
            (wpMeta.getD 0) webFiles ⟨[], existingImages.getD [], 0, 0, 0⟩).upCount,
          skippedCount := (uploadLoop (existingImages.getD []) uploadFn filmTitle
            (wpMeta.getD 0) webFiles ⟨[], existingImages.getD [], 0, 0, 0⟩).skipCount,
          failedCount := (uploadLoop (existingImages.getD []) uploadFn filmTitle
            (wpMeta.getD 0) webFiles ⟨[], existingImages.getD [], 0, 0, 0⟩).failCount,
          persistedImages := some (uploadLoop (existingImages.getD []) uploadFn filmTitle
            (wpMeta.getD 0) webFiles ⟨[], existingImages.getD [], 0, 0, 0⟩).map,
          persistedLedger :=
            if (uploadLoop (existingImages.getD []) uploadFn filmTitle
                (wpMeta.getD 0) webFiles ⟨[], existingImages.getD [], 0, 0, 0⟩).uploaded = []
            then prevLedger
            else some (uploadLoop (existingImages.getD []) uploadFn filmTitle
              (wpMeta.getD 0) webFiles ⟨[], existingImages.getD [], 0, 0, 0⟩).uploaded } := by
  unfold uploadMediaToWordPress
  rw [if_neg h]

/-! ### C1 -/

/-- C1: if every upload of the first pass succeeds, a second
`UploadMediaToWordPress` pass over the same `_web.jpg` files, reading the
filename→media-id map persisted by the first pass, uploads nothing —
every file's base name is already a key of the loaded map, so all files
are counted as skipped — and returns the same media-id collection as the
first pass. -/
theorem C1_second_run_uploads_nothing :
    ∀ (webFiles : List String)
      (uploadFn : String → String → String → Option MediaItem)
      (filmTitle : String) (wpMeta : Option Int)
      (existing0 : Option (List (String × Nat)))
      (ledger0 : Option (List LedgerEntry)) (r1 r2 : UploadRun),
      (∀ f ∈ webFiles,
        (uploadFn f (mkUploadTitle filmTitle (baseName f)) (mkAltText filmTitle)).isSome) →
      r1 = uploadMediaToWordPress wpMeta existing0 ledger0 webFiles uploadFn filmTitle →
      r2 = uploadMediaToWordPress wpMeta r1.persistedImages r1.persistedLedger
        webFiles uploadFn filmTitle →
      r2.uploadedCount = 0 ∧ r2.uploadedMedia = [] ∧
      r2.skippedCount = webFiles.length ∧ r2.imageIds = r1.imageIds := by
  intro webFiles uploadFn filmTitle wpMeta existing0 ledger0 r1 r2 hsucc hr1 hr2
  by_cases hempty : webFiles = []
  · subst hempty hr1 hr2
    simp [uploadMediaToWordPress]
  · rw [uploadMediaToWordPress_ne_empty _ _ _ _ _ _ hempty] at hr1
    have hall : ∀ f ∈ webFiles,
        ((mapLookup (uploadLoop (existing0.getD []) uploadFn filmTitle
          (wpMeta.getD 0) webFiles ⟨[], existing0.getD [], 0, 0, 0⟩).map
          (baseName f)).isSome) :=
      uploadLoop_all_keys (existing0.getD []) uploadFn filmTitle (wpMeta.getD 0)
        webFiles ⟨[], existing0.getD [], 0, 0, 0⟩ hsucc (fun k hk => hk)
    rw [hr1] at hr2
    rw [uploadMediaToWordPress_ne_empty _ _ _ _ _ _ hempty] at hr2
    rw [show (Option.getD (some (uploadLoop (existing0.getD []) uploadFn filmTitle
        (wpMeta.getD 0) webFiles ⟨[], existing0.getD [], 0, 0, 0⟩).map) [])
        = (uploadLoop (existing0.getD []) uploadFn filmTitle
        (wpMeta.getD 0) webFiles ⟨[], existing0.getD [], 0, 0, 0⟩).map from rfl] at hr2
    rw [uploadLoop_all_skipped _ _ _ _ _ _ hall] at hr2
    subst hr1 hr2
    refine ⟨rfl, rfl, by simp, rfl⟩

/-- Witness for `C1_second_run_uploads_nothing`: one file, an upload
oracle that succeeds with media id 7, no prior state. -/
theorem C1_second_run_uploads_nothing_witness :
    (uploadMediaToWordPress none
      (uploadMediaToWordPress none none none ["a_web.jpg"]
        (fun _ _ _ => some ⟨7, "t", "u", "a"⟩) "F").persistedImages
      (uploadMediaToWordPress none none none ["a_web.jpg"]
        (fun _ _ _ => some ⟨7, "t", "u", "a"⟩) "F").persistedLedger
      ["a_web.jpg"] (fun _ _ _ => some ⟨7, "t", "u", "a"⟩) "F").uploadedCount = 0 ∧
    (uploadMediaToWordPress none
      (uploadMediaToWordPress none none none ["a_web.jpg"]
        (fun _ _ _ => some ⟨7, "t", "u", "a"⟩) "F").persistedImages
      (uploadMediaToWordPress none none none ["a_web.jpg"]
        (fun _ _ _ => some ⟨7, "t", "u", "a"⟩) "F").persistedLedger
      ["a_web.jpg"] (fun _ _ _ => some ⟨7, "t", "u", "a"⟩) "F").uploadedMedia = [] ∧
    (uploadMediaToWordPress none
      (uploadMediaToWordPress none none none ["a_web.jpg"]
        (fun _ _ _ => some ⟨7, "t", "u", "a"⟩) "F").persistedImages
      (uploadMediaToWordPress none none none ["a_web.jpg"]
        (fun _ _ _ => some ⟨7, "t", "u", "a"⟩) "F").persistedLedger
      ["a_web.jpg"] (fun _ _ _ => some ⟨7, "t", "u", "a"⟩) "F").skippedCount
        = (["a_web.jpg"] : List String).length ∧
    (uploadMediaToWordPress none
      (uploadMediaToWordPress none none none ["a_web.jpg"]
        (fun _ _ _ => some ⟨7, "t", "u", "a"⟩) "F").persistedImages
      (uploadMediaToWordPress none none none ["a_web.jpg"]
        (fun _ _ _ => some ⟨7, "t", "u", "a"⟩) "F").persistedLedger
      ["a_web.jpg"] (fun _ _ _ => some ⟨7, "t", "u", "a"⟩) "F").imageIds
        = (uploadMediaToWordPress none none none ["a_web.jpg"]
        (fun _ _ _ => some ⟨7, "t", "u", "a"⟩) "F").imageIds :=
  C1_second_run_uploads_nothing ["a_web.jpg"] (fun _ _ _ => some ⟨7, "t", "u", "a"⟩)
    "F" none none none _ _ (by decide) rfl rfl

/-! ### C5 -/

/-- Pre-existing ledger entry for the C5 counterexample. -/
def oldEntry : LedgerEntry := ⟨5, "Old", "u5", "alt", "old_web.jpg", .goInt 3⟩

/-- C5 counterexample: a pass that uploads one new file persists a
`"wordpress_media"` row holding only this pass's entry — the previously
persisted entry `oldEntry` is dropped, because `SaveMetadata` is an
insert-or-replace upsert and the source passes only `uploadedMedia`.
The claim's predicted append result differs from the actual row. -/
theorem C5_ledger_not_appended_counterexample :
    (uploadMediaToWordPress none (some [("old_web.jpg", 5)]) (some [oldEntry])
        ["new_web.jpg"] (fun _ _ _ => some ⟨9, "T9", "u9", "A9"⟩) "Film").persistedLedger
      = some [⟨9, "T9", "u9", "A9", "new_web.jpg", .goInt 0⟩] ∧
    (uploadMediaToWordPress none (some [("old_web.jpg", 5)]) (some [oldEntry])
        ["new_web.jpg"] (fun _ _ _ => some ⟨9, "T9", "u9", "A9"⟩) "Film").persistedLedger
      ≠ some ([oldEntry] ++
        (uploadMediaToWordPress none (some [("old_web.jpg", 5)]) (some [oldEntry])
          ["new_web.jpg"] (fun _ _ _ => some ⟨9, "T9", "u9", "A9"⟩) "Film").uploadedMedia) := by
  constructor
  · decide
  · decide

/-- C5 (amended): after a non-empty pass, (a) the persisted
filename→media-id map is the merge of the previously persisted map with
this pass's uploads — entries whose source files were not present in
this pass are retained unchanged; (b) the persisted `"wordpress_media"`
ledger row is **replaced by exactly this pass's new entries** when there
is at least one, and left untouched when there are none — previously
persisted ledger entries are not retained alongside new ones. -/
theorem C5_persistence_semantics :
    ∀ (wpMeta : Option Int) (existing0 : Option (List (String × Nat)))
      (ledger0 : Option (List LedgerEntry)) (webFiles : List String)
      (uploadFn : String → String → String → Option MediaItem)
      (filmTitle : String) (r : UploadRun),
      webFiles ≠ [] →
      r = uploadMediaToWordPress wpMeta existing0 ledger0 webFiles uploadFn filmTitle →
      r.persistedImages = some r.finalMap ∧
      (∀ k, k ∉ webFiles.map baseName →
        mapLookup r.finalMap k = mapLookup (existing0.getD []) k) ∧
      (r.uploadedMedia ≠ [] → r.persistedLedger = some r.uploadedMedia) ∧
      (r.uploadedMedia = [] → r.persistedLedger = ledger0) := by
  intro wpMeta existing0 ledger0 webFiles uploadFn filmTitle r hne hr
  rw [uploadMediaToWordPress_ne_empty _ _ _ _ _ _ hne] at hr
  subst hr
  refine ⟨rfl, ?_, ?_, ?_⟩
  · intro k hk
    exact uploadLoop_outside_keys _ _ _ _ _ _ _ hk
  · intro hnil
    show (if (uploadLoop (existing0.getD []) uploadFn filmTitle
        (wpMeta.getD 0) webFiles ⟨[], existing0.getD [], 0, 0, 0⟩).uploaded = []
      then ledger0
      else some (uploadLoop (existing0.getD []) uploadFn filmTitle
        (wpMeta.getD 0) webFiles ⟨[], existing0.getD [], 0, 0, 0⟩).uploaded) = _
    rw [if_neg hnil]
  · intro hnil
    show (if (uploadLoop (existing0.getD []) uploadFn filmTitle
        (wpMeta.getD 0) webFiles ⟨[], existing0.getD [], 0, 0, 0⟩).uploaded = []
      then ledger0
      else some (uploadLoop (existing0.getD []) uploadFn filmTitle
        (wpMeta.getD 0) webFiles ⟨[], existing0.getD [], 0, 0, 0⟩).uploaded) = ledger0
    rw [if_pos hnil]

/-- Witness for `C5_persistence_semantics` at the counterexample inputs. -/
theorem C5_persistence_semantics_witness :
    (uploadMediaToWordPress none (some [("old_web.jpg", 5)]) (some [oldEntry])
        ["new_web.jpg"] (fun _ _ _ => some ⟨9, "T9", "u9", "A9"⟩) "Film").persistedImages
      = some (uploadMediaToWordPress none (some [("old_web.jpg", 5)]) (some [oldEntry])
        ["new_web.jpg"] (fun _ _ _ => some ⟨9, "T9", "u9", "A9"⟩) "Film").finalMap ∧
    mapLookup (uploadMediaToWordPress none (some [("old_web.jpg", 5)]) (some [oldEntry])
        ["new_web.jpg"] (fun _ _ _ => some ⟨9, "T9", "u9", "A9"⟩) "Film").finalMap "old_web.jpg"
      = mapLookup ((some [("old_web.jpg", 5)] : Option (List (String × Nat))).getD [])
          "old_web.jpg" := by
  have h := C5_persistence_semantics none (some [("old_web.jpg", 5)]) (some [oldEntry])
    ["new_web.jpg"] (fun _ _ _ => some ⟨9, "T9", "u9", "A9"⟩) "Film" _ (by decide) rfl
  exact ⟨h.1, h.2.1 "old_web.jpg" (by decide)⟩

/-! ## Entity upsert: `CreateOrUpdateWordPressProject`
(src/internal/wordpress/operations.go lines 188-344) and
`updateMediaMetadataWithPostID` (lines 388-418) -/

/-- `models.WordPressMetadata`: the persisted `"wordpress"` record. -/
structure WPMetadata where
  postID : Int
  title : String
  slug : String
  status : String
  createdAt : String
  updatedAt : String
  deriving DecidableEq, Repr

/-- The post returned by the backend `CreatePost`/`UpdatePost` call. -/
structure CreatedPost where
  id : Int
  title : String
  slug : String
  status : String
  date : String
  modified : String
  deriving DecidableEq, Repr

/-- Result of `GetWordPressMetadata`: missing row (the dedicated
"metadata not found" condition), another store error, or the record. -/
inductive MetaGet where
  | notFound
  | storeError
  | found (m : WPMetadata)
  deriving DecidableEq, Repr

/-- Result of reading the `"wordpress_media"` ledger row. -/
inductive LedgerGet where
  | notFound
  | storeError
  | found (entries : List LedgerEntry)
  deriving DecidableEq, Repr

/-- `updateMediaMetadataWithPostID` (operations.go lines 388-418): load
the ledger (`not found` → nothing to do, other errors propagate); for
each entry whose `post_id` value **is a Go `int` equal to 0** (the
`postIDValue.(int)` type assertion) rewrite it to `postID`; re-persist
only when something changed (`saveOk` is that `SaveMetadata` call).
Returns the re-persisted row, or `none` when nothing was saved. -/
def updateMediaMetadataWithPostID (ledgerGet : LedgerGet) (postID : Int)
    (saveOk : Bool) : Except Unit (Option (List LedgerEntry)) :=
  match ledgerGet with
  | .notFound => .ok none
  | .storeError => .error ()
  | .found entries =>
    let updated := entries.any (fun e => e.postId = .goInt 0)
    let newEntries := entries.map (fun e =>
      if e.postId = .goInt 0 then { e with postId := .goInt postID } else e)
    if updated then
      if saveOk then .ok (some newEntries) else .error ()
    else .ok none

/-- Which backend mutation the upsert performed. -/
inductive UpsertAction where
  | created (id : Int)
  | updated (id : Int)
  deriving DecidableEq, Repr

/-- Observable outcome of a successful `CreateOrUpdateWordPressProject`:
the action taken, the metadata passed to `SaveWordPressMetadata`
(persisted, since that save succeeded), and the ledger row re-persisted
by the `post_id` backfill (`none` when nothing was saved there). -/
structure UpsertOutcome where
  action : UpsertAction
  savedMetadata : WPMetadata
  ledgerPersisted : Option (List LedgerEntry)
  deriving DecidableEq, Repr

/-- Shared tail of the upsert after the create/update call
(operations.go lines 323-343): `SaveWordPressMetadata` failure is
**fatal** (returns an error); the `updateMediaMetadataWithPostID` error
is only warned about; `SaveDiviTemplateToFile` failure is fatal. -/
def finishUpsert (action : UpsertAction) (metadata : WPMetadata)
    (saveWPOk : Bool) (ledgerGet : LedgerGet) (saveLedgerOk : Bool)
    (saveTemplateOk : Bool) : Except Unit UpsertOutcome :=
  if !saveWPOk then .error ()
  else
    let ledgerPersisted :=
      match updateMediaMetadataWithPostID ledgerGet metadata.postID saveLedgerOk with
      | .ok r => r
      | .error _ => none
    if !saveTemplateOk then .error ()
    else .ok ⟨action, metadata, ledgerPersisted⟩

/-- `CreateOrUpdateWordPressProject` control flow (operations.go lines
209-343).  `getMeta` is the `GetWordPressMetadata` load (a store error
other than "not found" is fatal); `createRes`/`updateRes` are the
backend call results (`none` = failure, fatal).  When no record exists
the post is created and the new metadata takes the created post's id;
when a record exists the update is issued against its persisted post id,
which is never modified.  Template generation, category lookup and
featured-media selection influence only the backend request payload and
their failures are non-fatal, so they do not appear in this outcome
model. -/
def createOrUpdateWordPressProject (getMeta : MetaGet)
    (createRes updateRes : Option CreatedPost) (saveWPOk : Bool)
    (ledgerGet : LedgerGet) (saveLedgerOk : Bool) (saveTemplateOk : Bool) :
    Except Unit UpsertOutcome :=
  match getMeta with
  | .storeError => .error ()
  | .notFound =>
    match createRes with
    | none => .error ()
    | some cp =>
      finishUpsert (.created cp.id)
        ⟨cp.id, cp.title, cp.slug, cp.status, cp.date, cp.modified⟩
        saveWPOk ledgerGet saveLedgerOk saveTemplateOk
  | .found m =>
    match updateRes with
    | none => .error ()
    | some up =>
      finishUpsert (.updated m.postID)
        { m with title := up.title, slug := up.slug,
                 status := up.status, updatedAt := up.modified }
        saveWPOk ledgerGet saveLedgerOk saveTemplateOk

/-- With both bookkeeping saves succeeding, the create path returns `ok`
with the created id. -/
theorem createOrUpdate_notFound_ok (cp : CreatedPost) (ur : Option CreatedPost)
    (lg : LedgerGet) (sl : Bool) :
    ∃ L, createOrUpdateWordPressProject .notFound (some cp) ur true lg sl true
      = .ok ⟨.created cp.id,
          ⟨cp.id, cp.title, cp.slug, cp.status, cp.date, cp.modified⟩, L⟩ :=
  ⟨_, rfl⟩

/-- With both bookkeeping saves succeeding, the update path returns `ok`
against the persisted post id, which it does not modify. -/
theorem createOrUpdate_found_ok (m : WPMetadata) (cr : Option CreatedPost)
    (up : CreatedPost) (lg : LedgerGet) (sl : Bool) :
    ∃ L, createOrUpdateWordPressProject (.found m) cr (some up) true lg sl true
      = .ok ⟨.updated m.postID,
          { m with title := up.title, slug := up.slug,
                   status := up.status, updatedAt := up.modified }, L⟩ :=
  ⟨_, rfl⟩

/-! ### C2 -/

/-- C2: the upsert calls the backend create operation exactly when no
persisted record exists (conjunct 1) and otherwise updates against the
persisted post id without changing it (conjunct 2); hence two successive
successful runs — the first finding no record, the second finding the
record persisted by the first — perform one create followed by exactly
one update against the created id, and the metadata persisted by the
second run still carries the id returned by the first run's create
(conjunct 3). -/
theorem C2_upsert_create_then_update :
    ∀ (cp up : CreatedPost) (ur cr : Option CreatedPost) (m : WPMetadata)
      (lg lg2 : LedgerGet) (sl sl2 : Bool) (o1 o2 : UpsertOutcome),
      (createOrUpdateWordPressProject .notFound (some cp) ur true lg sl true = .ok o1 →
        o1.action = .created cp.id ∧ o1.savedMetadata.postID = cp.id) ∧
      (createOrUpdateWordPressProject (.found m) cr (some up) true lg sl true = .ok o2 →
        o2.action = .updated m.postID ∧ o2.savedMetadata.postID = m.postID) ∧
      (createOrUpdateWordPressProject .notFound (some cp) ur true lg sl true = .ok o1 →
       createOrUpdateWordPressProject (.found o1.savedMetadata) cr (some up) true lg2 sl2 true = .ok o2 →
        o1.action = .created cp.id ∧ o2.action = .updated cp.id ∧
        o2.savedMetadata.postID = cp.id) := by
  intro cp up ur cr m lg lg2 sl sl2 o1 o2
  have key1 : ∀ (lgx : LedgerGet) (slx : Bool) (ox : UpsertOutcome),
      createOrUpdateWordPressProject .notFound (some cp) ur true lgx slx true = .ok ox →
      ox.action = .created cp.id ∧ ox.savedMetadata.postID = cp.id := by
    intro lgx slx ox h
    obtain ⟨L, hL⟩ := createOrUpdate_notFound_ok cp ur lgx slx
    rw [hL] at h
    injection h with h
    subst h
    exact ⟨rfl, rfl⟩
  have key2 : ∀ (mx : WPMetadata) (lgx : LedgerGet) (slx : Bool) (ox : UpsertOutcome),
      createOrUpdateWordPressProject (.found mx) cr (some up) true lgx slx true = .ok ox →
      ox.action = .updated mx.postID ∧ ox.savedMetadata.postID = mx.postID := by
    intro mx lgx slx ox h
    obtain ⟨L, hL⟩ := createOrUpdate_found_ok mx cr up lgx slx
    rw [hL] at h
    injection h with h
    subst h
    exact ⟨rfl, rfl⟩
  refine ⟨key1 lg sl o1, key2 m lg sl o2, fun h1 h2 => ?_⟩
  obtain ⟨ha1, hid1⟩ := key1 lg sl o1 h1
  obtain ⟨ha2, hid2⟩ := key2 o1.savedMetadata lg2 sl2 o2 h2
  exact ⟨ha1, by rw [ha2, hid1], by rw [hid2, hid1]⟩

/-- Witness for `C2_upsert_create_then_update`: a concrete create
followed by an update; both runs succeed and the persisted post id stays
the created id 11. -/
theorem C2_upsert_create_then_update_witness :
    (createOrUpdateWordPressProject .notFound
        (some ⟨11, "T", "s", "draft", "d", "m"⟩) none true .notFound true true
      = .ok ⟨.created 11, ⟨11, "T", "s", "draft", "d", "m"⟩, none⟩) ∧
    ((⟨.created 11, ⟨11, "T", "s", "draft", "d", "m"⟩, none⟩ : UpsertOutcome).action
        = .created 11 ∧
     (⟨.updated 11, ⟨11, "T2", "s2", "draft", "d", "m2"⟩, none⟩ : UpsertOutcome).action
        = .updated 11 ∧
     (⟨.updated 11, ⟨11, "T2", "s2", "draft", "d", "m2"⟩, none⟩ : UpsertOutcome).savedMetadata.postID
        = 11) := by
  constructor
  · rfl
  · exact (C2_upsert_create_then_update ⟨11, "T", "s", "draft", "d", "m"⟩
      ⟨12, "T2", "s2", "draft", "d2", "m2"⟩ none none
      ⟨0, "", "", "", "", ""⟩ .notFound .notFound true true
      ⟨.created 11, ⟨11, "T", "s", "draft", "d", "m"⟩, none⟩
      ⟨.updated 11, ⟨11, "T2", "s2", "draft", "d", "m2"⟩, none⟩).2.2 rfl rfl

/-! ### C6 -/

/-- C6: the `post_id` backfill never fires on store-loaded data.  A
ledger entry written with `post_id` as Go `int` 0 comes back from the
JSON round trip with `post_id` as `float64` 0, the `postIDValue.(int)`
type assertion fails, no entry is rewritten and nothing is re-persisted
(`.ok none`), contrary to the claim that every `post_id == 0` entry is
rewritten to the new post id and the ledger re-persisted. -/
theorem C6_backfill_never_fires :
    (jsonRoundTripEntry ⟨9, "T", "u", "A", "p", .goInt 0⟩).postId = .goFloat 0 ∧
    updateMediaMetadataWithPostID
      (.found [jsonRoundTripEntry ⟨9, "T", "u", "A", "p", .goInt 0⟩]) 42 true
      = .ok none ∧
    updateMediaMetadataWithPostID
      (.found [jsonRoundTripEntry ⟨9, "T", "u", "A", "p", .goInt 0⟩]) 42 true
      ≠ .ok (some [⟨9, "T", "u", "A", "p", .goInt 42⟩]) := by
  refine ⟨rfl, rfl, ?_⟩
  intro h
  rw [show updateMediaMetadataWithPostID
      (.found [jsonRoundTripEntry ⟨9, "T", "u", "A", "p", .goInt 0⟩]) 42 true
      = Except.ok (none : Option (List LedgerEntry)) from rfl] at h
  injection h with h
  exact Option.noConfusion h

/-! ### C7 -/

/-- Concrete created post for the C7 counterexample. -/
def cp0 : CreatedPost := ⟨11, "T", "s", "draft", "d", "m"⟩

/-- C7 counterexample: the backend create succeeds but
`SaveWordPressMetadata` fails — contrary to the claim that bookkeeping
persistence failures are non-fatal, `CreateOrUpdateWordPressProject`
returns an error. -/
theorem C7_metadata_save_fatal_counterexample :
    createOrUpdateWordPressProject .notFound (some cp0) none false .notFound true true
      = .error () := by
  rfl

/-- C7 (amended): after a successful backend call, a failure
re-persisting the upload ledger (the `updateMediaMetadataWithPostID`
save, `saveLedgerOk = false`) is non-fatal — the upsert still returns
`ok` on both the create and the update path (conjuncts 1–2).  But a
failure of `SaveWordPressMetadata` is fatal (conjunct 3), as are the
backend create and update calls themselves (conjuncts 4–5), a metadata
store read error (conjunct 6) and the template file write (conjunct 7). -/
theorem C7_error_policy :
    (∀ (cp : CreatedPost) (ur : Option CreatedPost) (lg : LedgerGet),
      ∃ o, createOrUpdateWordPressProject .notFound (some cp) ur true lg false true
        = .ok o ∧ o.action = .created cp.id) ∧
    (∀ (m : WPMetadata) (cr : Option CreatedPost) (up : CreatedPost) (lg : LedgerGet),
      ∃ o, createOrUpdateWordPressProject (.found m) cr (some up) true lg false true
        = .ok o ∧ o.action = .updated m.postID) ∧
    (∀ (cp : CreatedPost) (ur : Option CreatedPost) (lg : LedgerGet) (sl st : Bool),
      createOrUpdateWordPressProject .notFound (some cp) ur false lg sl st
        = .error ()) ∧
    (∀ (ur : Option CreatedPost) (sw : Bool) (lg : LedgerGet) (sl st : Bool),
      createOrUpdateWordPressProject .notFound none ur sw lg sl st = .error ()) ∧
    (∀ (m : WPMetadata) (cr : Option CreatedPost) (sw : Bool) (lg : LedgerGet) (sl st : Bool),
      createOrUpdateWordPressProject (.found m) cr none sw lg sl st = .error ()) ∧
    (∀ (cr ur : Option CreatedPost) (sw : Bool) (lg : LedgerGet) (sl st : Bool),
      createOrUpdateWordPressProject .storeError cr ur sw lg sl st = .error ()) ∧
    (∀ (cp : CreatedPost) (ur : Option CreatedPost) (lg : LedgerGet) (sl : Bool),
      createOrUpdateWordPressProject .notFound (some cp) ur true lg sl false
        = .error ()) := by
  refine ⟨fun cp ur lg => ⟨_, rfl, rfl⟩,
    fun m cr up lg => ⟨_, rfl, rfl⟩,
    fun cp ur lg sl st => rfl,
    fun ur sw lg sl st => rfl,
    fun m cr sw lg sl st => rfl,
    fun cr ur sw lg sl st => rfl,
    fun cp ur lg sl => rfl⟩

/-! ## Director-name splitting (src/internal/services/divi_template.go
lines 197-232) -/

/-- The RE2 character class `\s` (`[\t\n\f\r ]`) used by the director
separator pattern. -/
def reSpace (c : Char) : Bool :=
  c = ' ' || c = '\t' || c = '\n' || c = '\u000C' || c = '\r'

/-- Length of the leading whitespace run. -/
def countSpaces (l : List Char) : Nat := (l.takeWhile reSpace).length

/-- Match of `\s*SEP\s*` at the head of `l` (the comma and `&`
alternatives): greedy whitespace, the separator character, greedy
whitespace; returns the matched length.  Because whitespace can never
satisfy the separator character, greedy matching with backtracking has
exactly this one possible match. -/
def altLoose (sep : Char) (l : List Char) : Option Nat :=
  let k := countSpaces l
  match l.drop k with
  | c :: rest => if c = sep then some (k + 1 + countSpaces rest) else none
  | [] => none

/-- Match of `\s+SEP\s+` at the head of `l` (the `+` and `y`
alternatives): at least one space on each side. -/
def altTight (sep : Char) (l : List Char) : Option Nat :=
  let k := countSpaces l
  if k = 0 then none
  else
    match l.drop k with
    | c :: rest =>
      if c = sep then
        let m := countSpaces rest
        if m = 0 then none else some (k + 1 + m)
      else none
    | [] => none

/-- Match of the whole alternation `\s*,\s*|\s+\+\s+|\s+y\s+|\s*&\s*` at
the head of `l`, trying the alternatives in the pattern's order
(Go regexp semantics: at a fixed start, the first alternative that
matches wins). -/
def matchSeparator (l : List Char) : Option Nat :=
  match altLoose ',' l with
  | some n => some n
  | none =>
    match altTight '+' l with
    | some n => some n
    | none =>
      match altTight 'y' l with
      | some n => some n
      | none => altLoose '&' l

/-- Leftmost separator match: start index and length (Go regexp finds
the match with the smallest starting index). -/
def findSeparator : List Char → Option (Nat × Nat)
  | [] => none
  | c :: rest =>
    match matchSeparator (c :: rest) with
    | some len => some (0, len)
    | none =>
      match findSeparator rest with
      | some (s, len) => some (s + 1, len)
      | none => none

/-- `Regexp.Split(directorString, -1)` for the separator pattern: cut at
each successive leftmost match.  Every match has length at least one, so
`fuel = length of the input` suffices; the fuel only bounds structural
recursion. -/
def splitSeparators : Nat → List Char → List (List Char)
  | 0, l => [l]
  | fuel + 1, l =>
    match findSeparator l with
    | none => [l]
    | some (s, len) => l.take s :: splitSeparators fuel (l.drop (s + len))

/-- `parseDirectors` (divi_template.go lines 197-210): split on the
separator pattern, trim each fragment, keep the non-empty ones. -/
def parseDirectors (s : String) : List String :=
  (((splitSeparators s.toList.length s.toList).map
      (fun piece => goTrimSpace piece)).filter
        (fun n => n.length > 0)).map (fun l => (⟨l⟩ : String))

/-- The director names produced by
`GenerateDiviTemplateDataWithWordPress` (divi_template.go lines
214-232): nothing when the direction field is empty; the split when the
multi-director flag upper-cases to `"SI"`; otherwise the whole field as
a single name. -/
def directorNamesOf (direccion multiDir : String) : List String :=
  if direccion = "" then []
  else if goToUpper multiDir = "SI" then parseDirectors direccion
  else [direccion]

/-! ### C9 -/

/-- C9 counterexample: the separator pattern
`\s*,\s*|\s+\+\s+|\s+y\s+|\s*&\s*` has no `"and"` alternative, so a
direction string joined with English `" and "` is **not** split,
contradicting the claim's separator set `{comma, "and"/"y", "+", "&"}`. -/
theorem C9_and_is_not_a_separator :
    parseDirectors "Ana and Luis Gómez" = ["Ana and Luis Gómez"] ∧
    parseDirectors "Ana and Luis Gómez" ≠ ["Ana", "Luis Gómez"] := by
  constructor
  · rfl
  · decide

/-- C9 (amended): with the multi-director flag equal to `"SI"`
case-insensitively, the direction field is split on the fixed separator
set comma, `" y "`, `" + "`, `"&"` (surrounding whitespace absorbed,
empty fragments discarded; English `"and"` is not a separator);
`"Ana Pérez y Luis Gómez"` yields exactly `["Ana Pérez", "Luis Gómez"]`,
split at the `" y "` separator, and every returned name is non-empty. -/
theorem C9_director_split :
    directorNamesOf "Ana Pérez y Luis Gómez" "si" = ["Ana Pérez", "Luis Gómez"] ∧
    directorNamesOf "Ana Pérez y Luis Gómez" "SI" = ["Ana Pérez", "Luis Gómez"] ∧
    directorNamesOf "Ana Pérez y Luis Gómez" "no" = ["Ana Pérez y Luis Gómez"] ∧
    parseDirectors "Ana, Luis + Bo & Cy" = ["Ana", "Luis", "Bo", "Cy"] ∧
    (∀ s : String, ∀ n ∈ parseDirectors s, n ≠ "") := by
  refine ⟨rfl, rfl, rfl, rfl, ?_⟩
  intro s n hn
  obtain ⟨l, hl, rfl⟩ := List.mem_map.mp hn
  have hlen := (List.mem_filter.mp hl).2
  intro he
  have : l = [] := by
    have := congrArg String.data he
    simpa using this
  rw [this] at hlen
  simp at hlen

/-- Witness for `C9_director_split`: the first returned name of the
two-director scenario is non-empty. -/
theorem C9_director_split_witness :
    ("Ana Pérez" ∈ parseDirectors "Ana Pérez y Luis Gómez") ∧
    "Ana Pérez" ≠ "" :=
  ⟨by decide,
    C9_director_split.2.2.2.2 "Ana Pérez y Luis Gómez" "Ana Pérez" (by decide)⟩

/-! ## Category lookup: `GetCategoryIDsByNames`
(src/internal/services/wordpress.go lines 696-753) -/

/-- A WordPress category as returned by `SearchCategories`. -/
structure WPCategory where
  id : Int
  name : String
  parent : Int
  deriving DecidableEq, Repr

/-- `rep` interleaved after every character. -/
def interleave (rep : Char) : List Char → List Char
  | [] => []
  | c :: rest => c :: rep :: interleave rep rest

/-- `strings.ReplaceAll(s, "", "-")`: with an empty pattern Go inserts
the replacement before every rune and once at the end (n+1 copies), so
`"drama"` becomes `"-d-r-a-m-a-"`. -/
def goReplaceAllEmpty (rep : Char) (s : List Char) : List Char :=
  rep :: interleave rep s

/-- Substring test (`strings.Contains hay needle`). -/
def containsSub (needle : List Char) : List Char → Bool
  | [] => needle.isEmpty
  | c :: rest => needle.isPrefixOf (c :: rest) || containsSub needle rest

def goContains (hay needle : String) : Bool := containsSub needle.toList hay.toList

/-- The two-pass match of one requested name against the search results
(wordpress.go lines 721-736): first substring match of the
hyphen-interleaved lower-cased name (the `strings.ReplaceAll(..., "",
"-")` form) against each lower-cased category name, then fallback
substring match of the raw trimmed lower-cased name. -/
def findCategory (cats : List WPCategory) (categoryName : String) : Option WPCategory :=
  match cats.find? (fun c => goContains (goToLower c.name)
      ⟨goReplaceAllEmpty '-' (goToLower categoryName).toList⟩) with
  | some c => some c
  | none => cats.find? (fun c => goContains (goToLower c.name)
      (goToLower (goTrimSpaceStr categoryName)))

/-- Aggregate result of `GetCategoryIDsByNames`. -/
structure CatLookupResult where
  categoryIDs : List Int
  foundCount : Nat
  notFoundCount : Nat
  deriving DecidableEq, Repr

/-- `GetCategoryIDsByNames` (wordpress.go lines 696-753).  `searchRes`
is the `SearchCategories(year)` result, issued identically for every
name (`none` = the call failed: warn, count as not found, continue).
Blank names are skipped.  For every matched name, the matched category's
own id **and, unconditionally, its parent id** are appended.  The Go
function's error result is always `nil` (its only return is
`return categoryIDs, nil`), modelled by `getCategoryIDsByNamesResult`. -/
def getCategoryIDsByNames (searchRes : Option (List WPCategory)) :
    List String → CatLookupResult
  | [] => ⟨[], 0, 0⟩
  | name :: rest =>
    let r := getCategoryIDsByNames searchRes rest
    if goTrimSpaceStr name = "" then r
    else
      match searchRes with
      | none => ⟨r.categoryIDs, r.foundCount, r.notFoundCount + 1⟩
      | some cats =>
        match findCategory cats name with
        | some c => ⟨c.id :: c.parent :: r.categoryIDs, r.foundCount + 1, r.notFoundCount⟩
        | none => ⟨r.categoryIDs, r.foundCount, r.notFoundCount + 1⟩

/-- The full return value, error included: always `ok`. -/
def getCategoryIDsByNamesResult (searchRes : Option (List WPCategory))
    (names : List String) : Except String (List Int) :=
  .ok (getCategoryIDsByNames searchRes names).categoryIDs

/-- One-step unfolding of `getCategoryIDsByNames` when the category
search failed. -/
theorem catIDs_cons_none (name : String) (rest : List String) :
    getCategoryIDsByNames none (name :: rest)
      = (if goTrimSpaceStr name = ""
         then getCategoryIDsByNames none rest
         else ⟨(getCategoryIDsByNames none rest).categoryIDs,
               (getCategoryIDsByNames none rest).foundCount,
               (getCategoryIDsByNames none rest).notFoundCount + 1⟩) := rfl

/-- One-step unfolding of `getCategoryIDsByNames` on a search result. -/
theorem catIDs_cons_some (cats : List WPCategory) (name : String)
    (rest : List String) :
    getCategoryIDsByNames (some cats) (name :: rest)
      = (if goTrimSpaceStr name = ""
         then getCategoryIDsByNames (some cats) rest
         else
           match findCategory cats name with
           | some c =>
             ⟨c.id :: c.parent :: (getCategoryIDsByNames (some cats) rest).categoryIDs,
               (getCategoryIDsByNames (some cats) rest).foundCount + 1,
               (getCategoryIDsByNames (some cats) rest).notFoundCount⟩
           | none => ⟨(getCategoryIDsByNames (some cats) rest).categoryIDs,
               (getCategoryIDsByNames (some cats) rest).foundCount,
               (getCategoryIDsByNames (some cats) rest).notFoundCount + 1⟩) := rfl

/-! ### C10 -/

/-- C10: the returned category-reference list always has exactly two
entries per matched name (the matched id and, unconditionally, the
parent id), the function never returns an error, and a match on a
parentless category (parent id 0) still contributes the pair `[7, 0]`. -/
theorem C10_two_ids_per_match :
    (∀ (searchRes : Option (List WPCategory)) (names : List String),
      (getCategoryIDsByNames searchRes names).categoryIDs.length
        = 2 * (getCategoryIDsByNames searchRes names).foundCount) ∧
    (∀ (searchRes : Option (List WPCategory)) (names : List String),
      ∃ ids, getCategoryIDsByNamesResult searchRes names = .ok ids) ∧
    (getCategoryIDsByNames (some [⟨7, "drama", 0⟩]) ["Drama"]).categoryIDs
      = [7, 0] := by
  refine ⟨?_, fun searchRes names => ⟨_, rfl⟩, by decide⟩
  intro searchRes names
  induction names with
  | nil => rfl
  | cons name rest ih =>
    cases searchRes with
    | none =>
      rw [catIDs_cons_none]
      by_cases hblank : goTrimSpaceStr name = ""
      · rw [if_pos hblank]; exact ih
      · rw [if_neg hblank]; simpa using ih
    | some cats =>
      rw [catIDs_cons_some]
      by_cases hblank : goTrimSpaceStr name = ""
      · rw [if_pos hblank]; exact ih
      · rw [if_neg hblank]
        generalize findCategory cats name = fc
        cases fc with
        | some c => simp only [List.length_cons]; omega
        | none => simpa using ih

end Excentrico
